import Mathlib

/-!
Verification of the trade-analytics aggregation engine of
`src/src/components/PerformanceChart.tsx`: the four pure derivations
`equityCurve`, `symbolPerformance`, `dailyPnL` and `roeDistribution`.

Modelling conventions:
* numbers are `ℚ` (the source works on JS numbers; none of the properties
  checked here depend on floating-point rounding);
* a timestamp string is modelled by its parsed value `new Date(s).getTime()`:
  `some ms` when it parses, `none` when it is unparsable (`NaN`);
* the optional `exit_timestamp` field is `Option (Option Int)`: the outer
  layer is JS truthiness of the field (absent or empty string give `none`),
  the inner layer is parsability;
* the optional `actual_return_pct` field is `Option ℚ`; JS truthiness of a
  number (`0` is falsy) is spelled out in `tradePnl` and `arpOrZero`;
* `Array.prototype.sort` receives the comparator
  `new Date(a.timestamp).getTime() - new Date(b.timestamp).getTime()`.
  ECMAScript guarantees a stable sort, and a comparator result of `NaN` is
  coerced to `+0` (elements compare as equal).  `sortLt` below is a stable
  insertion sort parameterised by the strict "comes before" test, which
  agrees with the required behaviour whenever the comparator is consistent
  (all keys parse); on inconsistent comparators ECMAScript leaves the order
  implementation-defined and `sortLt` picks one definite order.
-/

namespace TradeAnalytics

/-- The fields of the `TradeEntry` interface (`services/api.ts`) that the
analytics engine reads.  The remaining fields (`entry_price`, `quantity`,
`leverage`, …) are never consulted by `PerformanceChart` and are omitted.
`trade_status` is kept as a raw string, as in the JS runtime, so that
defensive behaviour on unexpected status values can be stated. -/
structure TradeEntry where
  trade_id : String
  timestamp : Option Int
  symbol : String
  side : String
  trade_status : String
  exit_timestamp : Option (Option Int)
  actual_return_pct : Option ℚ
  deriving Repr, DecidableEq

/-- The two fields of `PerformanceMetrics` that `PerformanceChart` reads. -/
structure PerformanceMetrics where
  current_balance : ℚ
  total_pnl : ℚ
  deriving Repr, DecidableEq

/-- One point of the equity curve.  The `Start` point carries no
`symbol`/`side` fields, so both are `Option`s. -/
structure EquityPoint where
  time : String
  balance : ℚ
  pnl : ℚ
  symbol : Option String
  side : Option String
  deriving Repr, DecidableEq

/-- Stable insertion of `x` into `l`: `x` passes over exactly the elements
that strictly precede it and lands in front of the first element that does
not. -/
def insertLt (lt : α → α → Bool) (x : α) : List α → List α
  | [] => [x]
  | y :: ys => if lt y x then y :: insertLt lt x ys else x :: y :: ys

/-- Stable sort by the strict comparison `lt` (insertion sort).  Models
`Array.prototype.sort` with a numeric comparator: stable, ascending whenever
`lt` is consistent. -/
def sortLt (lt : α → α → Bool) : List α → List α
  | [] => []
  | x :: xs => insertLt lt x (sortLt lt xs)

/-- `a` strictly precedes `b` under the comparator
`new Date(a.timestamp).getTime() - new Date(b.timestamp).getTime()`:
true only when both timestamps parse and `a`'s is smaller (a `NaN`
comparator result is coerced to `+0`, i.e. "equal"). -/
def tsLt (a b : TradeEntry) : Bool :=
  match a.timestamp, b.timestamp with
  | some x, some y => decide (x < y)
  | _, _ => false

/-- `trade.actual_return_pct ? (trade.actual_return_pct / 100) * balance : 0`
with JS truthiness: an absent value, and the falsy value `0`, both give 0. -/
def tradePnl (arp : Option ℚ) (balance : ℚ) : ℚ :=
  match arp with
  | some r => if r = 0 then 0 else r / 100 * balance
  | none => 0

/-- `trade.actual_return_pct || 0` (JS: `0` is falsy, so `0` also maps to 0). -/
def arpOrZero (arp : Option ℚ) : ℚ :=
  match arp with
  | some r => if r = 0 then 0 else r
  | none => 0

/-- The `closedTrades.forEach` loop of `equityCurve` (lines 22–32): one point
per closed trade, labelled `Trade ⟨index+1⟩`, compounding the running
balance. -/
def curvePoints : List TradeEntry → ℚ → Nat → List EquityPoint
  | [], _, _ => []
  | t :: ts, balance, index =>
    let pnl := tradePnl t.actual_return_pct balance
    { time := "Trade " ++ toString (index + 1), balance := balance + pnl,
      pnl := pnl, symbol := some t.symbol, side := some t.side }
      :: curvePoints ts (balance + pnl) (index + 1)

/-- `trades.filter(t => t.trade_status !== 'OPEN').sort(byTimestamp)`
(lines 18–20). -/
def closedTradesOf (trades : List TradeEntry) : List TradeEntry :=
  sortLt tsLt (trades.filter fun t => t.trade_status != "OPEN")

/-- The `equityCurve` memo (lines 12–35). -/
def computeEquityCurve (trades : List TradeEntry)
    (performance : Option PerformanceMetrics) : List EquityPoint :=
  if trades.isEmpty then []
  else
    match performance with
    | none => []
    | some perf =>
      let balance := perf.current_balance - perf.total_pnl
      { time := "Start", balance := balance, pnl := 0,
        symbol := none, side := none }
        :: curvePoints (closedTradesOf trades) balance 0

/-- The per-symbol accumulator record created at line 42:
`{ wins: 0, losses: 0, totalPnL: 0 }`.  Note that it has no `total` field. -/
structure SymbolAcc where
  wins : Nat
  losses : Nat
  totalPnL : ℚ
  deriving Repr, DecidableEq

/-- One symbol's entry of the `symbolPerformance` output (lines 54–59). -/
structure SymbolStat where
  symbol : String
  wins : Nat
  losses : Nat
  totalPnL : ℚ
  total : Nat
  winRate : ℚ
  deriving Repr, DecidableEq

/-- The body of the `forEach` at lines 45–51: a win bumps `wins`, any other
non-open status bumps `losses`; `actual_return_pct || 0` is accumulated. -/
def applyTrade (status : String) (arp : Option ℚ) (acc : SymbolAcc) : SymbolAcc :=
  { wins := if status = "CLOSED_WIN" then acc.wins + 1 else acc.wins,
    losses := if status = "CLOSED_WIN" then acc.losses else acc.losses + 1,
    totalPnL := acc.totalPnL + arpOrZero arp }

/-- `symbolStats[trade.symbol]` update: insert a zero record on first sight
(insertion order, as `Object.entries` preserves it for string keys), then
apply the trade. -/
def bumpSymbol (sym status : String) (arp : Option ℚ) :
    List (String × SymbolAcc) → List (String × SymbolAcc)
  | [] => [(sym, applyTrade status arp { wins := 0, losses := 0, totalPnL := 0 })]
  | (k, acc) :: rest =>
    if k = sym then (k, applyTrade status arp acc) :: rest
    else (k, acc) :: bumpSymbol sym status arp rest

/-- The expression `stats.total` at line 58 reads field `total` of the
accumulator record, which only has `wins`, `losses` and `totalPnL`; in the
JS runtime this read yields `undefined`. -/
def accTotalField (_acc : SymbolAcc) : Option ℚ := none

/-- JS `v > 0` where `v` may be `undefined`: `ToNumber(undefined)` is `NaN`,
and `NaN > 0` is `false`. -/
def jsGtZero : Option ℚ → Bool
  | none => false
  | some v => decide (0 < v)

/-- The object literal of lines 54–59:
`{ symbol, ...stats, total: stats.wins + stats.losses,
   winRate: stats.total > 0 ? (stats.wins / stats.total) * 100 : 0 }`.
`winRate` consults `stats.total` (see `accTotalField`), not the `total`
field being built in the same literal. -/
def mkSymbolStat (sym : String) (acc : SymbolAcc) : SymbolStat :=
  { symbol := sym, wins := acc.wins, losses := acc.losses,
    totalPnL := acc.totalPnL,
    total := acc.wins + acc.losses,
    winRate :=
      if jsGtZero (accTotalField acc) then
        (acc.wins : ℚ) / ((accTotalField acc).getD 0) * 100
      else 0 }

/-- The `symbolPerformance` memo (lines 37–60). -/
def computeSymbolPerformance (trades : List TradeEntry) : List SymbolStat :=
  ((trades.filter fun t => t.trade_status != "OPEN").foldl
      (fun acc t => bumpSymbol t.symbol t.trade_status t.actual_return_pct acc)
      []).map
    fun p => mkSymbolStat p.1 p.2

/-- One entry of the `dailyPnL` output: the day key (`none` models the
single `"Invalid Date"` string every unparsable timestamp collapses to) and
the summed return percentage. -/
structure DailyEntry where
  date : Option Int
  pnl : ℚ
  deriving Repr, DecidableEq

def msPerDay : Int := 86400000

/-- `new Date(ms).toDateString()` coarsens a parsed timestamp to its
calendar day (modelled as the day index for a fixed time zone); an
unparsable timestamp gives the single key `"Invalid Date"`, modelled
as `none`. -/
def dayKey : Option Int → Option Int
  | some ms => some (Int.fdiv ms msPerDay)
  | none => none

/-- Day key of a trade's `exit_timestamp` (meaningful after the presence
filter). -/
def exitDayKey (t : TradeEntry) : Option Int :=
  dayKey (t.exit_timestamp.getD none)

/-- The filter of line 65: `t.trade_status !== 'OPEN' && t.exit_timestamp`
(the second conjunct is JS truthiness of the field). -/
def dailyQualifies (t : TradeEntry) : Bool :=
  t.trade_status != "OPEN" && t.exit_timestamp.isSome

/-- `if (!dailyStats[date]) dailyStats[date] = 0; dailyStats[date] += v`:
add to the existing entry for the key, or append a fresh one (Object keys
keep insertion order). -/
def bumpDaily (key : Option Int) (v : ℚ) :
    List (Option Int × ℚ) → List (Option Int × ℚ)
  | [] => [(key, v)]
  | (k, p) :: rest =>
    if k = key then (k, p + v) :: rest else (k, p) :: bumpDaily key v rest

/-- The `forEach` accumulation of lines 65–69 over an initial store. -/
def dailyFold (ts : List TradeEntry) (acc : List (Option Int × ℚ)) :
    List (Option Int × ℚ) :=
  ts.foldl (fun acc t => bumpDaily (exitDayKey t) (arpOrZero t.actual_return_pct) acc) acc

/-- The comparator of line 73,
`new Date(a.date).getTime() - new Date(b.date).getTime()`: reparsing a
day string compares chronologically; `"Invalid Date"` gives `NaN`, coerced
to "equal". -/
def dateLt (a b : DailyEntry) : Bool :=
  match a.date, b.date with
  | some x, some y => decide (x < y)
  | _, _ => false

/-- The `dailyPnL` memo (lines 62–74). -/
def computeDailyPnL (trades : List TradeEntry) : List DailyEntry :=
  sortLt dateLt
    ((dailyFold (trades.filter dailyQualifies) []).map
      fun p => { date := p.1, pnl := p.2 })

/-- One slice of the win/loss pie (lines 81–84). -/
structure DistEntry where
  name : String
  value : Nat
  color : String
  deriving Repr, DecidableEq

/-- The `roeDistribution` memo (lines 76–85). -/
def computeDistribution (trades : List TradeEntry) : List DistEntry :=
  let closedTrades := trades.filter fun t => t.trade_status != "OPEN"
  let wins := (closedTrades.filter fun t => t.trade_status == "CLOSED_WIN").length
  let losses := (closedTrades.filter fun t => t.trade_status == "CLOSED_LOSS").length
  [{ name := "Wins", value := wins, color := "hsl(var(--profit))" },
   { name := "Losses", value := losses, color := "hsl(var(--loss))" }]

/-! ### A small store model for the in-place sort

`Array.prototype.sort` sorts its receiver in place.  In `equityCurve` the
receiver is the fresh array returned by `trades.filter(...)`, never the
caller's `trades` array.  To state that as a frame property we model JS
arrays-of-trades as references into a store: `filter` reads an array and
allocates a new one, `sort` overwrites the array it is called on. -/

abbrev Heap := List (List TradeEntry)

def heapRead (h : Heap) (r : Nat) : Option (List TradeEntry) := h[r]?

def heapAlloc (h : Heap) (v : List TradeEntry) : Heap × Nat := (h ++ [v], h.length)

def heapWrite (h : Heap) (r : Nat) (v : List TradeEntry) : Heap := h.set r v

/-- `arr.filter(p)`: reads the array at `r` and allocates a fresh array
holding the kept elements. -/
def filterAlloc (h : Heap) (r : Nat) (p : TradeEntry → Bool) : Heap × Nat :=
  heapAlloc h (((heapRead h r).getD []).filter p)

/-- `arr.sort(byTimestamp)`: overwrites the array at `r` with its sorted
contents. -/
def sortInPlaceAt (h : Heap) (r : Nat) : Heap :=
  heapWrite h r (sortLt tsLt ((heapRead h r).getD []))

/-- The `equityCurve` memo acting on a store: the filter allocates the
`closedTrades` array and the sort mutates that fresh array in place. -/
def computeEquityCurveHeap (h : Heap) (r : Nat)
    (performance : Option PerformanceMetrics) : Heap × List EquityPoint :=
  let trades := (heapRead h r).getD []
  if trades.isEmpty then (h, [])
  else
    match performance with
    | none => (h, [])
    | some perf =>
      let balance := perf.current_balance - perf.total_pnl
      let fr := filterAlloc h r fun t => t.trade_status != "OPEN"
      let h2 := sortInPlaceAt fr.1 fr.2
      let closedTrades := (heapRead h2 fr.2).getD []
      (h2,
        { time := "Start", balance := balance, pnl := 0,
          symbol := none, side := none }
          :: curvePoints closedTrades balance 0)

/-- `symbolPerformance` only reads the `trades` array (its `filter` and
`forEach` never write through the reference), so its store action is the
identity. -/
def computeSymbolPerformanceHeap (h : Heap) (r : Nat) : Heap × List SymbolStat :=
  (h, computeSymbolPerformance ((heapRead h r).getD []))

/-- `dailyPnL` only reads the `trades` array; its own `.sort` runs on the
fresh array produced by `Object.entries(...).map(...)`. -/
def computeDailyPnLHeap (h : Heap) (r : Nat) : Heap × List DailyEntry :=
  (h, computeDailyPnL ((heapRead h r).getD []))

/-- `roeDistribution` only reads the `trades` array. -/
def computeDistributionHeap (h : Heap) (r : Nat) : Heap × List DistEntry :=
  (h, computeDistribution ((heapRead h r).getD []))

/-! ### Helpers used to state the aggregation properties -/

/-- Keys of an association store, in insertion order. -/
def keysOf (l : List (Option Int × ℚ)) : List (Option Int) := l.map Prod.fst

/-- Total value an association store holds at key `k` (the value itself once
keys are known to be distinct). -/
def lookupSum (k : Option Int) (l : List (Option Int × ℚ)) : ℚ :=
  ((l.filter fun p => p.1 == k).map fun p => p.2).sum

/-- Summed `actual_return_pct || 0` of the trades whose exit day is `k`. -/
def dailySum (k : Option Int) (ts : List TradeEntry) : ℚ :=
  ((ts.filter fun t => exitDayKey t == k).map
    fun t => arpOrZero t.actual_return_pct).sum

/-- Default point for positional indexing in statements. -/
def dPoint : EquityPoint :=
  { time := "", balance := 0, pnl := 0, symbol := none, side := none }

/-- Default trade for positional indexing in statements. -/
def dTrade : TradeEntry :=
  { trade_id := "", timestamp := none, symbol := "", side := "",
    trade_status := "", exit_timestamp := none, actual_return_pct := none }

/-- Default distribution slice for positional indexing in statements. -/
def dDist : DistEntry := { name := "", value := 0, color := "" }

/-! ### Concrete inputs used by scenarios, counterexamples and witnesses -/

/-- The closed winning trade of the spec's equity-curve scenario:
`{status: CLOSED_WIN, actual_return_pct: 10, timestamp: t1}`. -/
def trWin : TradeEntry :=
  { trade_id := "t1", timestamp := some 1000, symbol := "BTCUSDT",
    side := "LONG", trade_status := "CLOSED_WIN",
    exit_timestamp := some (some 2000), actual_return_pct := some 10 }

/-- The open trade of the spec's equity-curve scenario. -/
def trOpen : TradeEntry :=
  { trade_id := "t2", timestamp := some 3000, symbol := "BTCUSDT",
    side := "SHORT", trade_status := "OPEN",
    exit_timestamp := none, actual_return_pct := none }

/-- The snapshot of the spec's equity-curve scenario:
`{current_balance: 11000, total_pnl: 1000}`. -/
def perfScenario : PerformanceMetrics :=
  { current_balance := 11000, total_pnl := 1000 }

/-- Winning trade of the symbol-stat scenario (`actual_return_pct` 5). -/
def trSymWin : TradeEntry :=
  { trade_id := "s1", timestamp := some 1, symbol := "BTCUSDT",
    side := "LONG", trade_status := "CLOSED_WIN",
    exit_timestamp := some (some 1), actual_return_pct := some 5 }

/-- Losing trade of the symbol-stat scenario (`actual_return_pct` −3). -/
def trSymLoss : TradeEntry :=
  { trade_id := "s2", timestamp := some 2, symbol := "BTCUSDT",
    side := "SHORT", trade_status := "CLOSED_LOSS",
    exit_timestamp := some (some 2), actual_return_pct := some (-3) }

/-- A closed trade whose `actual_return_pct` is absent: its equity-curve
increment is 0, so the balance does not move. -/
def trNoReturn : TradeEntry :=
  { trade_id := "n1", timestamp := some 1, symbol := "ETHUSDT",
    side := "LONG", trade_status := "CLOSED_WIN",
    exit_timestamp := some (some 1), actual_return_pct := none }

/-- Snapshot with starting balance 100 (current 100, realized 0). -/
def perfHundred : PerformanceMetrics := { current_balance := 100, total_pnl := 0 }

/-- A closed trade whose `timestamp` and `exit_timestamp` strings are both
unparsable (`new Date(...)` gives `NaN` / `"Invalid Date"`). -/
def trBadTs : TradeEntry :=
  { trade_id := "bad", timestamp := none, symbol := "BTCUSDT",
    side := "LONG", trade_status := "CLOSED_WIN",
    exit_timestamp := some none, actual_return_pct := some 5 }

/-! ## Lemmas about the stable sort -/

theorem length_insertLt (lt : α → α → Bool) (x : α) (l : List α) :
    (insertLt lt x l).length = l.length + 1 := by
  induction l with
  | nil => rfl
  | cons y ys ih =>
    simp only [insertLt]
    by_cases h : lt y x = true
    · simp [h, ih]
    · simp [h]

theorem length_sortLt (lt : α → α → Bool) (l : List α) :
    (sortLt lt l).length = l.length := by
  induction l with
  | nil => rfl
  | cons x xs ih => simp [sortLt, length_insertLt, ih]

theorem mem_insertLt {lt : α → α → Bool} {x a : α} {l : List α} :
    a ∈ insertLt lt x l ↔ a = x ∨ a ∈ l := by
  induction l with
  | nil => simp [insertLt]
  | cons y ys ih =>
    simp only [insertLt]
    by_cases h : lt y x = true
    · simp only [if_pos h, List.mem_cons, ih]
      try tauto
    · simp only [if_neg h, List.mem_cons]
      try tauto

theorem mem_sortLt {lt : α → α → Bool} {a : α} {l : List α} :
    a ∈ sortLt lt l ↔ a ∈ l := by
  induction l with
  | nil => simp [sortLt]
  | cons x xs ih => simp [sortLt, mem_insertLt, ih]

theorem filter_insertLt_of_neg {p : α → Bool} {x : α} (lt : α → α → Bool)
    (l : List α) (hpx : p x = false) :
    (insertLt lt x l).filter p = l.filter p := by
  induction l with
  | nil => simp [insertLt, hpx]
  | cons y ys ih =>
    simp only [insertLt]
    by_cases h : lt y x = true
    · rw [if_pos h, List.filter_cons, List.filter_cons, ih]
    · rw [if_neg h, List.filter_cons, hpx]
      simp

theorem filter_insertLt_of_pos {p : α → Bool} {x : α} {lt : α → α → Bool}
    {l : List α} (hpx : p x = true)
    (h : ∀ y ∈ l, p y = true → lt y x = false) :
    (insertLt lt x l).filter p = x :: l.filter p := by
  induction l with
  | nil => simp [insertLt, hpx]
  | cons y ys ih =>
    simp only [insertLt]
    by_cases hyx : lt y x = true
    · have hpy : p y = false := by
        cases hpy : p y with
        | false => rfl
        | true => exact absurd (h y (by simp) hpy) (by simp [hyx])
      have := ih fun z hz hpz => h z (by simp [hz]) hpz
      simp [hyx, List.filter_cons, hpy, this]
    · simp [hyx, List.filter_cons, hpx]

/-- Stability of `sortLt`: elements the predicate `p` keeps are pairwise
"equal" for the comparator, so the sort leaves their relative order — the
filtered subsequence — untouched. -/
theorem filter_sortLt {p : α → Bool} {lt : α → α → Bool}
    (h : ∀ a b, p a = true → p b = true → lt a b = false) (l : List α) :
    (sortLt lt l).filter p = l.filter p := by
  induction l with
  | nil => rfl
  | cons x xs ih =>
    simp only [sortLt]
    cases hpx : p x with
    | false => rw [filter_insertLt_of_neg lt _ hpx, ih, List.filter_cons, hpx]; rfl
    | true =>
      rw [filter_insertLt_of_pos hpx fun y _ hpy => h y x hpy hpx, ih,
        List.filter_cons, hpx]
      simp

theorem pairwise_insertLt {lt : α → α → Bool} {R : α → α → Prop}
    (tr : Transitive R) {x : α} {l : List α} (hl : l.Pairwise R)
    (hcmp : ∀ y ∈ l, (lt y x = true → R y x) ∧ (lt y x = false → R x y)) :
    (insertLt lt x l).Pairwise R := by
  induction l with
  | nil => simp [insertLt]
  | cons y ys ih =>
    rcases List.pairwise_cons.mp hl with ⟨hy, hys⟩
    simp only [insertLt]
    by_cases hyx : lt y x = true
    · rw [if_pos hyx]
      refine List.pairwise_cons.mpr ⟨?_, ?_⟩
      · intro z hz
        rcases mem_insertLt.mp hz with rfl | hz
        · exact (hcmp y (by simp)).1 hyx
        · exact hy z hz
      · exact ih hys fun z hz => hcmp z (by simp [hz])
    · rw [if_neg hyx]
      refine List.pairwise_cons.mpr ⟨?_, hl⟩
      intro z hz
      rcases List.mem_cons.mp hz with rfl | hz
      · exact (hcmp z (by simp)).2 (by simpa using hyx)
      · exact tr ((hcmp y (by simp)).2 (by simpa using hyx)) (hy z hz)

theorem pairwise_sortLt {lt : α → α → Bool} {R : α → α → Prop}
    (tr : Transitive R) {l : List α}
    (htot : ∀ a ∈ l, ∀ b ∈ l, (lt a b = true → R a b) ∧ (lt a b = false → R b a)) :
    (sortLt lt l).Pairwise R := by
  induction l with
  | nil => simp [sortLt]
  | cons x xs ih =>
    simp only [sortLt]
    refine pairwise_insertLt tr
      (ih fun a ha b hb => htot a (by simp [ha]) b (by simp [hb])) ?_
    intro y hy
    have hyxs : y ∈ xs := mem_sortLt.mp hy
    exact ⟨fun h => (htot y (by simp [hyxs]) x (by simp)).1 h,
      fun h => (htot y (by simp [hyxs]) x (by simp)).2 h⟩

/-! ## Lemmas about the equity-curve replay -/

theorem length_curvePoints (ts : List TradeEntry) (bal : ℚ) (idx : Nat) :
    (curvePoints ts bal idx).length = ts.length := by
  induction ts generalizing bal idx with
  | nil => rfl
  | cons t ts ih => simp [curvePoints, ih]

/-- The JS ternary over `actual_return_pct` computes exactly
`(getD 0) / 100 * balance`: truthiness only short-circuits the value `0`,
whose contribution is `0` anyway. -/
theorem tradePnl_eq (arp : Option ℚ) (bal : ℚ) :
    tradePnl arp bal = arp.getD 0 / 100 * bal := by
  cases arp with
  | none => simp [tradePnl]
  | some r =>
    by_cases hr : r = 0
    · simp [tradePnl, hr]
    · simp [tradePnl, hr]

/-- Stepping invariant of the `forEach` loop: in the list
`p :: curvePoints ts bal idx`, provided the seed point `p` records the
running balance `bal`, every point after the seed has the P&L of its trade
taken against the previous point's balance, and its balance is the previous
balance plus that P&L. -/
theorem curve_step (ts : List TradeEntry) :
    ∀ (bal : ℚ) (idx : Nat) (p : EquityPoint), p.balance = bal →
      ∀ i, i < ts.length →
        ((p :: curvePoints ts bal idx).getD (i + 1) dPoint).pnl
            = tradePnl (ts.getD i dTrade).actual_return_pct
                (((p :: curvePoints ts bal idx).getD i dPoint).balance)
          ∧ ((p :: curvePoints ts bal idx).getD (i + 1) dPoint).balance
            = ((p :: curvePoints ts bal idx).getD i dPoint).balance
              + ((p :: curvePoints ts bal idx).getD (i + 1) dPoint).pnl := by
  induction ts with
  | nil => intro bal idx p hp i hi; simp at hi
  | cons t ts ih =>
    intro bal idx p hp i hi
    match i with
    | 0 =>
      simp [curvePoints, hp]
    | j + 1 =>
      have hj : j < ts.length := by simpa using hi
      have key := ih (bal + tradePnl t.actual_return_pct bal) (idx + 1)
        { time := "Trade " ++ toString (idx + 1),
          balance := bal + tradePnl t.actual_return_pct bal,
          pnl := tradePnl t.actual_return_pct bal,
          symbol := some t.symbol, side := some t.side } rfl j hj
      simpa only [curvePoints, List.getD_cons_succ] using key

/-! ## Lemmas about the daily aggregation store -/

theorem lookupSum_bumpDaily (k key : Option Int) (v : ℚ)
    (l : List (Option Int × ℚ)) :
    lookupSum k (bumpDaily key v l)
      = lookupSum k l + if k = key then v else 0 := by
  induction l with
  | nil =>
    by_cases hk : k = key
    · simp [bumpDaily, lookupSum, hk]
    · simp [bumpDaily, lookupSum, hk, Ne.symm hk]
  | cons q rest ih =>
    obtain ⟨k2, p⟩ := q
    simp only [bumpDaily]
    by_cases hk2 : k2 = key
    · rw [if_pos hk2]
      by_cases hk : k = k2
      · simp [lookupSum, hk, hk2, List.filter_cons]
        ring
      · have hkey : ¬ (k = key) := by rw [← hk2]; exact hk
        simp [lookupSum, List.filter_cons, Ne.symm hk, hkey]
    · rw [if_neg hk2]
      by_cases hk : k = k2
      · simp only [lookupSum, List.filter_cons] at ih ⊢
        simp [← hk, ih]
        ring
      · simp only [lookupSum, List.filter_cons] at ih ⊢
        simp [Ne.symm hk, ih]

theorem lookupSum_dailyFold (k : Option Int) (ts : List TradeEntry) :
    ∀ acc, lookupSum k (dailyFold ts acc) = lookupSum k acc + dailySum k ts := by
  induction ts with
  | nil => intro acc; simp [dailyFold, dailySum, lookupSum]
  | cons t ts ih =>
    intro acc
    have hstep : dailyFold (t :: ts) acc
        = dailyFold ts (bumpDaily (exitDayKey t) (arpOrZero t.actual_return_pct) acc) := rfl
    rw [hstep, ih, lookupSum_bumpDaily]
    by_cases hk : exitDayKey t = k
    · simp [dailySum, List.filter_cons, hk]
      ring
    · have hk2 : ¬ (k = exitDayKey t) := fun h => hk h.symm
      simp [dailySum, List.filter_cons, hk, hk2]

theorem keysOf_bumpDaily (key : Option Int) (v : ℚ)
    (l : List (Option Int × ℚ)) :
    keysOf (bumpDaily key v l)
      = if key ∈ keysOf l then keysOf l else keysOf l ++ [key] := by
  induction l with
  | nil => simp [bumpDaily, keysOf]
  | cons q rest ih =>
    obtain ⟨k2, p⟩ := q
    simp only [bumpDaily]
    by_cases hk2 : k2 = key
    · rw [if_pos hk2]
      have hmem : key ∈ keysOf ((k2, p) :: rest) := by simp [keysOf, hk2]
      rw [if_pos hmem]
      simp [keysOf]
    · rw [if_neg hk2]
      have hcons : keysOf ((k2, p) :: rest) = k2 :: keysOf rest := rfl
      have hcond : (key ∈ keysOf ((k2, p) :: rest)) ↔ key ∈ keysOf rest := by
        rw [hcons]
        constructor
        · intro h
          rcases List.mem_cons.mp h with h1 | h1
          · exact absurd h1.symm hk2
          · exact h1
        · intro h
          exact List.mem_cons_of_mem _ h
      by_cases hmem : key ∈ keysOf rest
      · rw [if_pos (hcond.mpr hmem)]
        rw [if_pos hmem] at ih
        simp only [keysOf, List.map_cons] at ih ⊢
        rw [ih]
      · rw [if_neg fun h => hmem (hcond.mp h)]
        rw [if_neg hmem] at ih
        simp only [keysOf, List.map_cons] at ih ⊢
        rw [ih]
        rfl

theorem mem_keysOf_dailyFold {k : Option Int} (ts : List TradeEntry) :
    ∀ acc, k ∈ keysOf (dailyFold ts acc)
      ↔ k ∈ keysOf acc ∨ ∃ t ∈ ts, exitDayKey t = k := by
  induction ts with
  | nil => intro acc; simp [dailyFold]
  | cons t ts ih =>
    intro acc
    have hstep : dailyFold (t :: ts) acc
        = dailyFold ts (bumpDaily (exitDayKey t) (arpOrZero t.actual_return_pct) acc) := rfl
    rw [hstep, ih, keysOf_bumpDaily]
    by_cases hmem : exitDayKey t ∈ keysOf acc
    · rw [if_pos hmem]
      constructor
      · rintro (h | ⟨u, hu, he⟩)
        · exact Or.inl h
        · exact Or.inr ⟨u, by simp [hu], he⟩
      · rintro (h | ⟨u, hu, he⟩)
        · exact Or.inl h
        · rcases List.mem_cons.mp hu with rfl | hu2
          · exact Or.inl (he ▸ hmem)
          · exact Or.inr ⟨u, hu2, he⟩
    · rw [if_neg hmem]
      constructor
      · rintro (h | ⟨u, hu, he⟩)
        · rcases List.mem_append.mp h with h1 | h1
          · exact Or.inl h1
          · exact Or.inr ⟨t, by simp, (List.mem_singleton.mp h1).symm⟩
        · exact Or.inr ⟨u, by simp [hu], he⟩
      · rintro (h | ⟨u, hu, he⟩)
        · exact Or.inl (List.mem_append.mpr (Or.inl h))
        · rcases List.mem_cons.mp hu with rfl | hu2
          · exact Or.inl (List.mem_append.mpr (Or.inr (by simp [he])))
          · exact Or.inr ⟨u, hu2, he⟩

theorem nodup_keysOf_bumpDaily {key : Option Int} {v : ℚ}
    {l : List (Option Int × ℚ)} (h : (keysOf l).Nodup) :
    (keysOf (bumpDaily key v l)).Nodup := by
  rw [keysOf_bumpDaily]
  by_cases hmem : key ∈ keysOf l
  · rwa [if_pos hmem]
  · rw [if_neg hmem]
    simpa [List.nodup_append] using ⟨h, hmem⟩

theorem nodup_keysOf_dailyFold (ts : List TradeEntry) :
    ∀ acc, (keysOf acc).Nodup → (keysOf (dailyFold ts acc)).Nodup := by
  induction ts with
  | nil => intro acc h; exact h
  | cons t ts ih =>
    intro acc h
    exact ih _ (nodup_keysOf_bumpDaily h)

theorem filter_keysOf_eq_nil {k : Option Int} {l : List (Option Int × ℚ)}
    (h : k ∉ keysOf l) : l.filter (fun p => p.1 == k) = [] := by
  induction l with
  | nil => rfl
  | cons q rest ih =>
    have hq : ¬ (q.1 = k) := fun he => h (by simp [keysOf, he])
    have hrest : k ∉ keysOf rest := fun hm => h (by simp [keysOf]; tauto)
    simp [List.filter_cons, hq, ih hrest]

theorem lookupSum_of_mem_nodup {k : Option Int} {v : ℚ}
    {l : List (Option Int × ℚ)} (hnd : (keysOf l).Nodup)
    (hmem : (k, v) ∈ l) : lookupSum k l = v := by
  induction l with
  | nil => simp at hmem
  | cons q rest ih =>
    obtain ⟨k2, p⟩ := q
    have hcons : keysOf ((k2, p) :: rest) = k2 :: keysOf rest := rfl
    rw [hcons] at hnd
    have hpair := List.nodup_cons.mp hnd
    rcases List.mem_cons.mp hmem with he | hmem2
    · rw [Prod.mk.injEq] at he
      obtain ⟨rfl, rfl⟩ := he
      simp [lookupSum, List.filter_cons, filter_keysOf_eq_nil hpair.1]
    · have hk2 : ¬ (k2 = k) := by
        intro he2
        refine hpair.1 ?_
        show k2 ∈ keysOf rest
        rw [he2]
        exact List.mem_map.mpr ⟨(k, v), hmem2, rfl⟩
      simp only [lookupSum, List.filter_cons] at ih ⊢
      simp [hk2, ih hpair.2 hmem2]

/-! ## Lemmas about the store model and status counting -/

theorem heapRead_set_append {h : Heap} {v w : List TradeEntry} {r : Nat}
    (hr : r < h.length) :
    heapRead ((h ++ [v]).set h.length w) r = heapRead h r := by
  unfold heapRead
  rw [List.getElem?_set_ne (by omega)]
  exact List.getElem?_append_left hr

theorem heapRead_sortInPlaceAt_filterAlloc (h : Heap) (r : Nat)
    (p : TradeEntry → Bool) :
    heapRead (sortInPlaceAt (filterAlloc h r p).1 (filterAlloc h r p).2)
        (filterAlloc h r p).2
      = some (sortLt tsLt (((heapRead h r).getD []).filter p)) := by
  unfold filterAlloc heapAlloc sortInPlaceAt heapWrite heapRead
  rw [List.getElem?_concat_length]
  rw [List.getElem?_set_self (by simp)]
  rfl

theorem length_filter_disjoint (p q : α → Bool)
    (h : ∀ a, p a = true → q a = false) (l : List α) :
    (l.filter fun a => p a || q a).length
      = (l.filter p).length + (l.filter q).length := by
  induction l with
  | nil => rfl
  | cons x xs ih =>
    simp only [List.filter_cons]
    cases hp : p x with
    | true =>
      have hq := h x hp
      simp only [hp, hq, Bool.true_or]
      simp [ih]
      omega
    | false =>
      cases hq : q x with
      | true =>
        simp only [hp, hq, Bool.false_or]
        simp [ih]
        omega
      | false =>
        simp only [hp, hq, Bool.false_or]
        simp [ih]

theorem filter_status_of_ne {S : String} (hS : S ≠ "OPEN")
    (l : List TradeEntry) :
    ((l.filter fun t => t.trade_status != "OPEN").filter
        fun t => t.trade_status == S)
      = l.filter fun t => t.trade_status == S := by
  rw [List.filter_filter]
  refine List.filter_congr ?_
  intro t _
  by_cases h : t.trade_status = S
  · simp [h, hS]
  · simp [h]

/-! ## Claim theorems -/

/-- C3: `computeEquityCurve` returns `[]` whenever the trades list is empty
or the performance snapshot is absent (no synthetic zero-point), and for a
non-empty trades list with a present snapshot the output length is exactly
`1 +` the number of trades with status ≠ OPEN. -/
theorem c3_empty_guards_and_length :
    (∀ perf, computeEquityCurve [] perf = [])
    ∧ (∀ trades, computeEquityCurve trades none = [])
    ∧ ∀ (trades : List TradeEntry) (pm : PerformanceMetrics), trades ≠ [] →
        (computeEquityCurve trades (some pm)).length
          = 1 + (trades.filter fun t => t.trade_status != "OPEN").length := by
  refine ⟨fun perf => rfl, fun trades => ?_, fun trades pm hne => ?_⟩
  · cases trades <;> rfl
  · have hne2 : trades.isEmpty = false := List.isEmpty_eq_false.mpr hne
    simp [computeEquityCurve, hne2, length_curvePoints, closedTradesOf,
      length_sortLt, Nat.add_comm]

/-- Witness for C3 at a concrete input: one closed trade gives a curve of
length 2. -/
theorem c3_empty_guards_and_length_witness :
    (computeEquityCurve [trWin] (some perfScenario)).length
      = 1 + (([trWin] : List TradeEntry).filter
          fun t => t.trade_status != "OPEN").length :=
  c3_empty_guards_and_length.2.2 [trWin] perfScenario (by simp)

/-- C10: `computeDistribution` always returns exactly two entries, named
`Wins` then `Losses`, even on the empty trades list (counts 0, not an empty
collection). -/
theorem c10_distribution_shape :
    (∀ trades : List TradeEntry,
        ((computeDistribution trades).map fun e => e.name) = ["Wins", "Losses"]
        ∧ (computeDistribution trades).length = 2)
    ∧ computeDistribution []
        = [{ name := "Wins", value := 0, color := "hsl(var(--profit))" },
           { name := "Losses", value := 0, color := "hsl(var(--loss))" }] :=
  ⟨fun _ => ⟨rfl, rfl⟩, rfl⟩

/-- C6: the `Wins` slice counts exactly the `CLOSED_WIN` trades, the
`Losses` slice exactly the `CLOSED_LOSS` trades, and the two counts sum to
the number of trades whose status lies in `{CLOSED_WIN, CLOSED_LOSS}` (any
other non-open status is ignored, not mis-bucketed). -/
theorem c6_distribution_counts (trades : List TradeEntry) :
    ((computeDistribution trades).getD 0 dDist).value
        = (trades.filter fun t => t.trade_status == "CLOSED_WIN").length
    ∧ ((computeDistribution trades).getD 1 dDist).value
        = (trades.filter fun t => t.trade_status == "CLOSED_LOSS").length
    ∧ ((computeDistribution trades).getD 0 dDist).value
          + ((computeDistribution trades).getD 1 dDist).value
        = (trades.filter fun t =>
            t.trade_status == "CLOSED_WIN"
              || t.trade_status == "CLOSED_LOSS").length := by
  have hwin : ((computeDistribution trades).getD 0 dDist).value
      = ((trades.filter fun t => t.trade_status != "OPEN").filter
          fun t => t.trade_status == "CLOSED_WIN").length := rfl
  have hloss : ((computeDistribution trades).getD 1 dDist).value
      = ((trades.filter fun t => t.trade_status != "OPEN").filter
          fun t => t.trade_status == "CLOSED_LOSS").length := rfl
  have hW := filter_status_of_ne (S := "CLOSED_WIN") (by decide) trades
  have hL := filter_status_of_ne (S := "CLOSED_LOSS") (by decide) trades
  refine ⟨by rw [hwin, hW], by rw [hloss, hL], ?_⟩
  rw [hwin, hW, hloss, hL,
    length_filter_disjoint _ _ ?_ trades]
  intro a ha
  have : a.trade_status = "CLOSED_WIN" := by simpa using ha
  simp [this]

/-- C2 (failing evaluation): on the spec scenario — one `CLOSED_WIN` and
one `CLOSED_LOSS` on the same symbol with `actual_return_pct` 5 and −3 —
the code yields wins 1, losses 1, total 2, totalPnL 2 as claimed, but
`winRate` 0 instead of the claimed 50: line 58 reads `stats.total`, a field
that does not exist on the accumulator record, and `undefined > 0` is
false, so the divide-by-zero guard always takes its `0` branch. -/
theorem c2_winrate_zero_eval :
    computeSymbolPerformance [trSymWin, trSymLoss]
      = [{ symbol := "BTCUSDT", wins := 1, losses := 1, totalPnL := 2,
           total := 2, winRate := 0 }] := by
  simp [computeSymbolPerformance, bumpSymbol, applyTrade, mkSymbolStat,
    arpOrZero, accTotalField, jsGtZero, trSymWin, trSymLoss]
  norm_num

/-- C1: for a non-empty trades list and a present snapshot, the curve starts
with a `Start` point at `current_balance − total_pnl` with zero incremental
P&L, and each later point's increment is `actual_return_pct / 100` times the
balance of the previous point (0 when absent), its balance being the
previous balance plus the increment; the spec scenario evaluates to exactly
the two expected points, the OPEN trade excluded. -/
theorem c1_equity_curve_replay (trades : List TradeEntry)
    (pm : PerformanceMetrics) (hne : trades ≠ []) :
    (computeEquityCurve trades (some pm)).getD 0 dPoint
        = { time := "Start", balance := pm.current_balance - pm.total_pnl,
            pnl := 0, symbol := none, side := none }
    ∧ (∀ i, i < (closedTradesOf trades).length →
        ((computeEquityCurve trades (some pm)).getD (i + 1) dPoint).pnl
            = ((closedTradesOf trades).getD i dTrade).actual_return_pct.getD 0
                / 100
              * ((computeEquityCurve trades (some pm)).getD i dPoint).balance
        ∧ ((computeEquityCurve trades (some pm)).getD (i + 1) dPoint).balance
            = ((computeEquityCurve trades (some pm)).getD i dPoint).balance
              + ((computeEquityCurve trades (some pm)).getD (i + 1) dPoint).pnl)
    ∧ computeEquityCurve [trWin, trOpen] (some perfScenario)
        = [{ time := "Start", balance := 10000, pnl := 0,
             symbol := none, side := none },
           { time := "Trade 1", balance := 11000, pnl := 1000,
             symbol := some "BTCUSDT", side := some "LONG" }] := by
  have hne2 : trades.isEmpty = false := List.isEmpty_eq_false.mpr hne
  have hcurve : computeEquityCurve trades (some pm)
      = { time := "Start", balance := pm.current_balance - pm.total_pnl,
          pnl := 0, symbol := none, side := none }
        :: curvePoints (closedTradesOf trades)
            (pm.current_balance - pm.total_pnl) 0 := by
    simp [computeEquityCurve, hne2]
  refine ⟨by rw [hcurve]; rfl, fun i hi => ?_, ?_⟩
  · rw [hcurve]
    have hstep := curve_step (closedTradesOf trades)
      (pm.current_balance - pm.total_pnl) 0
      { time := "Start", balance := pm.current_balance - pm.total_pnl,
        pnl := 0, symbol := none, side := none } rfl i hi
    rw [tradePnl_eq] at hstep
    exact hstep
  · simp [computeEquityCurve, closedTradesOf, sortLt, insertLt, curvePoints,
      tradePnl, trWin, trOpen, perfScenario, tsLt]
    norm_num
    rfl

/-- Witness for C1: the `Start` point of the scenario curve. -/
theorem c1_equity_curve_replay_witness :
    (computeEquityCurve [trWin, trOpen] (some perfScenario)).getD 0 dPoint
      = { time := "Start",
          balance := perfScenario.current_balance - perfScenario.total_pnl,
          pnl := 0, symbol := none, side := none } :=
  (c1_equity_curve_replay [trWin, trOpen] perfScenario (by simp)).1

/-- C7 (amended): each successive balance equals the previous balance
compounded by the trade's realized return, `balance * (1 + return/100)`
with an absent `actual_return_pct` contributing 0; consecutive balances are
NOT in general strictly ordered — they coincide whenever the return is 0 or
absent (see `c7_strict_order_counterexample`). -/
theorem c7_compounding_balances (trades : List TradeEntry)
    (pm : PerformanceMetrics) (hne : trades ≠ [])
    (i : Nat) (hi : i < (closedTradesOf trades).length) :
    ((computeEquityCurve trades (some pm)).getD (i + 1) dPoint).balance
      = ((computeEquityCurve trades (some pm)).getD i dPoint).balance
        * (1 + ((closedTradesOf trades).getD i dTrade).actual_return_pct.getD 0
            / 100) := by
  have hne2 : trades.isEmpty = false := List.isEmpty_eq_false.mpr hne
  have hcurve : computeEquityCurve trades (some pm)
      = { time := "Start", balance := pm.current_balance - pm.total_pnl,
          pnl := 0, symbol := none, side := none }
        :: curvePoints (closedTradesOf trades)
            (pm.current_balance - pm.total_pnl) 0 := by
    simp [computeEquityCurve, hne2]
  rw [hcurve]
  obtain ⟨h1, h2⟩ := curve_step (closedTradesOf trades)
    (pm.current_balance - pm.total_pnl) 0
    { time := "Start", balance := pm.current_balance - pm.total_pnl,
      pnl := 0, symbol := none, side := none } rfl i hi
  rw [h2, h1, tradePnl_eq]
  ring

/-- Witness for C7 (amended) at a concrete input: the scenario curve's
second balance compounds the first by 10%. -/
theorem c7_compounding_balances_witness :
    ((computeEquityCurve [trWin, trOpen] (some perfScenario)).getD 1 dPoint).balance
      = ((computeEquityCurve [trWin, trOpen] (some perfScenario)).getD 0 dPoint).balance
        * (1 + ((closedTradesOf [trWin, trOpen]).getD 0 dTrade).actual_return_pct.getD 0
            / 100) :=
  c7_compounding_balances [trWin, trOpen] perfScenario (by simp) 0
    (by simp [closedTradesOf, sortLt, insertLt, trWin, trOpen, length_insertLt])

/-- C7 (counterexample): a single closed trade without `actual_return_pct`
leaves the balance unchanged (100 → 100), so consecutive balances of the
curve are equal, refuting the claimed strict ordering. -/
theorem c7_strict_order_counterexample :
    ((computeEquityCurve [trNoReturn] (some perfHundred)).map
        fun p => p.balance) = [100, 100]
    ∧ ¬ List.Chain'
        (fun p q : EquityPoint => p.balance < q.balance ∨ q.balance < p.balance)
        (computeEquityCurve [trNoReturn] (some perfHundred)) := by
  have hcurve : computeEquityCurve [trNoReturn] (some perfHundred)
      = [{ time := "Start", balance := 100, pnl := 0,
           symbol := none, side := none },
         { time := "Trade 1", balance := 100, pnl := 0,
           symbol := some "ETHUSDT", side := some "LONG" }] := by
    simp [computeEquityCurve, closedTradesOf, sortLt, insertLt, curvePoints,
      tradePnl, trNoReturn, perfHundred, tsLt]
    rfl
  rw [hcurve]
  refine ⟨rfl, ?_⟩
  rw [List.chain'_cons]
  rintro ⟨h | h, -⟩ <;> exact absurd h (by norm_num)

/-- C4: the closed trades are replayed in ascending order of the trade's
open/record `timestamp` field (provided all timestamps parse), and the sort
is stable — trades with equal timestamps keep the relative order they had
in the input list (their filtered subsequence is untouched). -/
theorem c4_sort_ascending_and_stable (trades : List TradeEntry)
    (hts : ∀ t ∈ trades, t.timestamp.isSome = true) :
    (closedTradesOf trades).Pairwise
        (fun a b => a.timestamp.getD 0 ≤ b.timestamp.getD 0)
    ∧ ∀ v : Int,
        (closedTradesOf trades).filter (fun t => t.timestamp == some v)
          = (trades.filter fun t => t.trade_status != "OPEN").filter
              fun t => t.timestamp == some v := by
  constructor
  · refine pairwise_sortLt ?_ ?_
    · intro a b c hab hbc
      exact le_trans hab hbc
    intro a ha b hb
    have hamem := (List.mem_filter.mp ha).1
    have hbmem := (List.mem_filter.mp hb).1
    obtain ⟨x, hx⟩ := Option.isSome_iff_exists.mp (hts a hamem)
    obtain ⟨y, hy⟩ := Option.isSome_iff_exists.mp (hts b hbmem)
    constructor
    · intro h
      have hxy : x < y := by simpa [tsLt, hx, hy] using h
      simp [hx, hy]
      omega
    · intro h
      have hxy : ¬ (x < y) := by simpa [tsLt, hx, hy] using h
      simp [hx, hy]
      omega
  · intro v
    refine filter_sortLt ?_ _
    intro a b hpa hpb
    have ha : a.timestamp = some v := by simpa using hpa
    have hb : b.timestamp = some v := by simpa using hpb
    simp [tsLt, ha, hb]

/-- Witness for C4: two closed trades given in reverse timestamp order come
out ascending. -/
theorem c4_sort_ascending_and_stable_witness :
    (closedTradesOf [trSymLoss, trSymWin]).Pairwise
        (fun a b => a.timestamp.getD 0 ≤ b.timestamp.getD 0) :=
  (c4_sort_ascending_and_stable [trSymLoss, trSymWin]
    (by simp [trSymLoss, trSymWin])).1

/-- C5: every entry of `computeDailyPnL` is derived only from non-open
trades with a present `exit_timestamp` (closed trades lacking one never
appear), each day's value is the sum of `actual_return_pct` (missing
treated as 0) over that day's qualifying trades, and — provided the
qualifying exit timestamps parse — the output is sorted ascending by the
day's chronological value. -/
theorem c5_daily_pnl_spec (trades : List TradeEntry)
    (hex : ∀ t ∈ trades, dailyQualifies t = true →
      (t.exit_timestamp.getD none).isSome = true) :
    computeDailyPnL (trades.filter dailyQualifies) = computeDailyPnL trades
    ∧ (∀ e ∈ computeDailyPnL trades, ∃ t ∈ trades,
        dailyQualifies t = true ∧ exitDayKey t = e.date)
    ∧ (∀ e ∈ computeDailyPnL trades,
        e.pnl = dailySum e.date (trades.filter dailyQualifies))
    ∧ (computeDailyPnL trades).Pairwise
        (fun a b => a.date.getD 0 ≤ b.date.getD 0) := by
  have hnodup : (keysOf (dailyFold (trades.filter dailyQualifies) [])).Nodup :=
    nodup_keysOf_dailyFold _ [] (by simp [keysOf])
  have hmem_fold : ∀ e : DailyEntry, e ∈ computeDailyPnL trades →
      (e.date, e.pnl) ∈ dailyFold (trades.filter dailyQualifies) [] := by
    intro e he
    unfold computeDailyPnL at he
    obtain ⟨p, hp, hpe⟩ := List.mem_map.mp (mem_sortLt.mp he)
    rw [← hpe]
    exact hp
  have hkey_mem : ∀ e : DailyEntry, e ∈ computeDailyPnL trades →
      ∃ t ∈ trades, dailyQualifies t = true ∧ exitDayKey t = e.date := by
    intro e he
    have h1 : e.date ∈ keysOf (dailyFold (trades.filter dailyQualifies) []) :=
      List.mem_map.mpr ⟨(e.date, e.pnl), hmem_fold e he, rfl⟩
    rcases (mem_keysOf_dailyFold _ _).mp h1 with h2 | ⟨t, ht, hkey⟩
    · simp [keysOf] at h2
    · obtain ⟨htr, hq⟩ := List.mem_filter.mp ht
      exact ⟨t, htr, hq, hkey⟩
  refine ⟨?_, hkey_mem, ?_, ?_⟩
  · unfold computeDailyPnL
    have hfil : (trades.filter dailyQualifies).filter dailyQualifies
        = trades.filter dailyQualifies := by
      rw [List.filter_filter]
      exact List.filter_congr fun t _ => Bool.and_self _
    rw [hfil]
  · intro e he
    have hls : lookupSum e.date (dailyFold (trades.filter dailyQualifies) [])
        = e.pnl := lookupSum_of_mem_nodup hnodup (hmem_fold e he)
    rw [← hls, lookupSum_dailyFold]
    simp [lookupSum]
  · unfold computeDailyPnL
    refine pairwise_sortLt ?_ ?_
    · intro a b c hab hbc
      exact le_trans hab hbc
    intro a ha b hb
    have hsome : ∀ x : DailyEntry,
        x ∈ (dailyFold (trades.filter dailyQualifies) []).map
            (fun p => ({ date := p.1, pnl := p.2 } : DailyEntry)) →
        x.date.isSome = true := by
      intro x hx
      obtain ⟨p, hp, hpx⟩ := List.mem_map.mp hx
      have h1 : p.1 ∈ keysOf (dailyFold (trades.filter dailyQualifies) []) :=
        List.mem_map.mpr ⟨p, hp, rfl⟩
      rcases (mem_keysOf_dailyFold _ _).mp h1 with h2 | ⟨t, ht, hkey⟩
      · simp [keysOf] at h2
      · obtain ⟨htr, hq⟩ := List.mem_filter.mp ht
        obtain ⟨ms, hms⟩ :=
          Option.isSome_iff_exists.mp (hex t htr hq)
        have : exitDayKey t = some (Int.fdiv ms msPerDay) := by
          simp [exitDayKey, hms, dayKey]
        rw [← hpx]
        show p.1.isSome = true
        rw [← hkey, this]
        rfl
    obtain ⟨x, hx⟩ := Option.isSome_iff_exists.mp (hsome a ha)
    obtain ⟨y, hy⟩ := Option.isSome_iff_exists.mp (hsome b hb)
    constructor
    · intro hlt
      have hxy : x < y := by simpa [dateLt, hx, hy] using hlt
      simp [hx, hy]
      omega
    · intro hlt
      have hxy : ¬ (x < y) := by simpa [dateLt, hx, hy] using hlt
      simp [hx, hy]
      omega

/-- Witness for C5: the two-trade scenario list gives a sorted daily
series. -/
theorem c5_daily_pnl_spec_witness :
    (computeDailyPnL [trSymWin, trSymLoss]).Pairwise
        (fun a b => a.date.getD 0 ≤ b.date.getD 0) :=
  (c5_daily_pnl_spec [trSymWin, trSymLoss]
    (by simp [trSymWin, trSymLoss, dailyQualifies])).2.2.2

/-- C8 (amended): the code never surfaces a `MalformedTimestamp` condition
and does not exclude the offending record: a non-open trade whose present
`exit_timestamp` is unparsable is bucketed into `computeDailyPnL` under the
single `"Invalid Date"` key, and a non-open trade stays in the equity-curve
replay list whatever its `timestamp` parses to. -/
theorem c8_malformed_not_excluded (trades : List TradeEntry) (t : TradeEntry)
    (hmem : t ∈ trades) :
    (dailyQualifies t = true → t.exit_timestamp = some none →
        ∃ e ∈ computeDailyPnL trades, e.date = none)
    ∧ (t.trade_status ≠ "OPEN" → t ∈ closedTradesOf trades) := by
  constructor
  · intro hq hbad
    have hkey : (none : Option Int)
        ∈ keysOf (dailyFold (trades.filter dailyQualifies) []) := by
      refine (mem_keysOf_dailyFold _ _).mpr (Or.inr ⟨t, ?_, ?_⟩)
      · exact List.mem_filter.mpr ⟨hmem, hq⟩
      · simp [exitDayKey, hbad, dayKey]
    unfold keysOf at hkey
    obtain ⟨p, hp, hp1⟩ := List.mem_map.mp hkey
    refine ⟨{ date := p.1, pnl := p.2 }, ?_, by simp [hp1]⟩
    unfold computeDailyPnL
    exact mem_sortLt.mpr (List.mem_map.mpr ⟨p, hp, rfl⟩)
  · intro hopen
    unfold closedTradesOf
    exact mem_sortLt.mpr (List.mem_filter.mpr ⟨hmem, by simp [hopen]⟩)

/-- Witness for C8 (amended): the concrete malformed-timestamp trade shows
up under the invalid-date bucket. -/
theorem c8_malformed_not_excluded_witness :
    ∃ e ∈ computeDailyPnL [trBadTs], e.date = none :=
  (c8_malformed_not_excluded [trBadTs] trBadTs (by simp)).1 rfl rfl

/-- C8 (counterexample): with a single closed trade whose two timestamp
strings are unparsable, `computeDailyPnL` still emits an entry — bucketed
under the invalid-date key, with the trade's 5% return — and the trade is
still part of the equity-curve replay list; it is not excluded from either
date-ordered view as the claim states. -/
theorem c8_invalid_date_counterexample :
    computeDailyPnL [trBadTs] = [{ date := none, pnl := 5 }]
    ∧ closedTradesOf [trBadTs] = [trBadTs] := by
  constructor
  · simp [computeDailyPnL, dailyFold, bumpDaily, dailyQualifies, exitDayKey,
      dayKey, arpOrZero, sortLt, insertLt, dateLt, trBadTs]
  · simp [closedTradesOf, sortLt, insertLt, trBadTs]

/-- C9: the engine never mutates its inputs.  In the store model, the sort
inside `equityCurve` writes only to the freshly allocated filtered array, so
every pre-existing array — in particular the caller's `trades` array — reads
back unchanged, and the produced curve coincides with the pure function of
the read value; the other three operations only read the store. -/
theorem c9_no_input_mutation (h : Heap) (r : Nat)
    (perf : Option PerformanceMetrics) (q : Nat) (hq : q < h.length) :
    heapRead (computeEquityCurveHeap h r perf).1 q = heapRead h q
    ∧ (computeEquityCurveHeap h r perf).2
        = computeEquityCurve ((heapRead h r).getD []) perf
    ∧ (computeSymbolPerformanceHeap h r).1 = h
    ∧ (computeDailyPnLHeap h r).1 = h
    ∧ (computeDistributionHeap h r).1 = h := by
  have hclosed : heapRead
      (sortInPlaceAt (filterAlloc h r fun t => t.trade_status != "OPEN").1
        (filterAlloc h r fun t => t.trade_status != "OPEN").2)
      (filterAlloc h r fun t => t.trade_status != "OPEN").2
      = some (sortLt tsLt
          (((heapRead h r).getD []).filter fun t => t.trade_status != "OPEN")) :=
    heapRead_sortInPlaceAt_filterAlloc h r _
  refine ⟨?_, ?_, rfl, rfl, rfl⟩
  · unfold computeEquityCurveHeap
    by_cases hemp : ((heapRead h r).getD []).isEmpty
    · simp [hemp]
    · cases perf with
      | none => simp [hemp]
      | some pm =>
        simp only [hemp, Bool.false_eq_true, if_false]
        exact heapRead_set_append hq
  · unfold computeEquityCurveHeap computeEquityCurve
    by_cases hemp : ((heapRead h r).getD []).isEmpty
    · simp [hemp]
    · cases perf with
      | none => simp [hemp]
      | some pm =>
        simp only [hemp, Bool.false_eq_true, if_false]
        rw [hclosed]
        rfl

/-- Witness for C9 at a concrete store: one stored trades array, read back
unchanged after computing the curve. -/
theorem c9_no_input_mutation_witness :
    heapRead (computeEquityCurveHeap [[trWin]] 0 (some perfScenario)).1 0
      = heapRead [[trWin]] 0 :=
  (c9_no_input_mutation [[trWin]] 0 (some perfScenario) 0 (by simp)).1

end TradeAnalytics
